import Mathlib

/-!
# FitCRM — formal model of `src/main.js`

A shallow embedding of the behavioural core of the FitCRM single-page
client manager: the persistent store (`loadClients` / `saveClients` over a
JSON blob), the field validators, the Add/Edit submit handler, the search
filter, the delete handler, and the exercise-selection loop.

Conventions of the embedding:
* JS strings are Lean `String`s; `String.prototype.trim` is modelled by
  `jsTrim` and `toLowerCase` by `jsToLower` (ASCII case folding — an
  adequate model for the fields involved).
* JS `Date` values are modelled as minutes since the Unix epoch (`Int`);
  date-only strings `YYYY-MM-DD` parse to UTC midnight of the denoted
  calendar day, per ECMAScript, while `setHours(0,0,0,0)` zeroes the
  *local* time-of-day, so the model carries an explicit timezone offset
  `tz` (minutes to add to UTC to obtain local time).
* `localStorage` is an `Option String` (the blob under the fixed key, or
  absent); `JSON.stringify` / `JSON.parse` are modelled on the grammar the
  application itself produces (an array of client objects).
* Handlers are pure functions from the pre-state and the event data to the
  post-state plus the observable outputs (alerts, console logs).
-/

namespace FitCRM

/-- Model of the JS expression `haystack.includes(needle)`: `needle` occurs
as a contiguous substring of `haystack`. -/
def jsIncludes (haystack needle : String) : Bool :=
  decide (needle.data <:+: haystack.data)

/-- Model of `String.prototype.trim`: drop whitespace from both ends
(on the whitespace characters of `Char.isWhitespace`). -/
def jsTrim (s : String) : String :=
  String.mk (((s.data.dropWhile Char.isWhitespace).reverse.dropWhile
    Char.isWhitespace).reverse)

/-- Model of `String.prototype.toLowerCase` (ASCII case folding, which
covers every field the application lower-cases). -/
def jsToLower (s : String) : String :=
  String.mk (s.data.map Char.toLower)

/-!
## Client record (§3 of the spec; object literal at `main.js:544`)

Fields are stored exactly as the submit handler builds them: `id` is the
numeric creation timestamp, every other field is a string (`age` is kept as
the raw trimmed string, not parsed). -/

structure Client where
  id : Nat
  fullName : String
  age : String
  gender : String
  email : String
  phone : String
  goal : String
  startDate : String
  endDate : String
  deriving Repr, DecidableEq

/-!
## Validators (`main.js:216-289`)
-/

/-- Character class `[^\s@]` of the email regex. -/
def emailAtomChar (c : Char) : Bool :=
  !c.isWhitespace && c != '@'

/-- Model of `isValidEmail` (`main.js:222-227`): the trimmed string must
match `^[^\s@]+@[^\s@]+\.(com|edu)$` case-insensitively.  The string
therefore splits as `local@rest` with exactly one `@`, no whitespace on
either side, and `rest` of the shape `middle.tld` with `middle` nonempty
(it may itself contain dots, since `.` lies in `[^\s@]`) and `tld` equal to
`com` or `edu` up to case. -/
def isValidEmail (email : String) : Bool :=
  let cs := (jsTrim email).data
  match cs.splitOn '@' with
  | [l, r] =>
    let rlow := r.map Char.toLower
    !l.isEmpty && l.all emailAtomChar &&
    r.all emailAtomChar &&
    decide (4 < r.length) &&
    (decide (List.IsSuffix ('.' :: ['c', 'o', 'm']) rlow) ||
     decide (List.IsSuffix ('.' :: ['e', 'd', 'u']) rlow))
  | _ => false

/-- Model of `parseInt(s, 10)` on an already-trimmed string: optional sign
followed by at least one leading decimal digit; trailing garbage is
ignored; no digits means NaN (`none`). -/
def jsParseInt (s : String) : Option Int :=
  let core (cs : List Char) (sign : Int) : Option Int :=
    let ds := cs.takeWhile Char.isDigit
    if ds.isEmpty then none
    else some (sign * (ds.foldl (fun a c => 10 * a + (c.toNat - 48)) 0 : Nat))
  match s.data with
  | '-' :: rest => core rest (-1)
  | '+' :: rest => core rest 1
  | cs => core cs 1

/-- Model of `isValidAge` (`main.js:234-238`): a falsy (empty) string is
invalid; otherwise `parseInt` must produce a number in `[5, 120]`. -/
def isValidAge (age : String) : Bool :=
  if age.isEmpty then false
  else match jsParseInt age with
    | none => false
    | some n => decide (5 ≤ n) && decide (n ≤ 120)

/-- Model of `isValidPhone` (`main.js:245-249`): strip every non-digit
character (`replace(/\D/g, "")`) and require exactly 11 digits. -/
def isValidPhone (phone : String) : Bool :=
  if phone.isEmpty then false
  else (phone.data.filter Char.isDigit).length == 11

/-!
## Date model

The handler compares `Date` values built from date-only strings (parsed as
UTC midnight per ECMAScript) and from `new Date()` (the current instant),
after `setHours(0,0,0,0)` which zeroes the *local* clock.  Times are
minutes since the epoch; `tz` is the offset added to UTC to get local
time (e.g. `-300` for UTC-05:00). -/

/-- Number of days from the civil epoch 1970-01-01 to the given Gregorian
date (Howard Hinnant's `days_from_civil` algorithm, exact for every valid
date). -/
def civilDays (y m d : Nat) : Int :=
  let yi : Int := if m ≤ 2 then (y : Int) - 1 else (y : Int)
  let era : Int := yi.fdiv 400
  let yoe : Int := yi - era * 400
  let mp : Int := if 2 < m then (m : Int) - 3 else (m : Int) + 9
  let doy : Int := (153 * mp + 2).fdiv 5 + (d : Int) - 1
  let doe : Int := yoe * 365 + yoe.fdiv 4 - yoe.fdiv 100 + doy
  era * 146097 + doe - 719468

/-- Length of a Gregorian month. -/
def daysInMonth (y m : Nat) : Nat :=
  if m == 2 then
    if y % 4 == 0 && (y % 100 != 0 || y % 400 == 0) then 29 else 28
  else if m == 4 || m == 6 || m == 9 || m == 11 then 30
  else 31

/-- Decimal value of a run of digit characters. -/
def digitsVal (cs : List Char) : Nat :=
  cs.foldl (fun a c => 10 * a + (c.toNat - 48)) 0

/-- Model of ECMAScript parsing of a date-only string: `new Date(s)` for a
well-formed `YYYY-MM-DD` string denotes UTC midnight of that calendar day;
anything malformed or out of range is an invalid date (`none`, i.e. NaN). -/
def parseDateOnly (s : String) : Option Int :=
  match s.data with
  | [y1, y2, y3, y4, '-', m1, m2, '-', d1, d2] =>
    if [y1, y2, y3, y4, m1, m2, d1, d2].all Char.isDigit then
      let y := digitsVal [y1, y2, y3, y4]
      let m := digitsVal [m1, m2]
      let d := digitsVal [d1, d2]
      if 1 ≤ m && m ≤ 12 && 1 ≤ d && d ≤ daysInMonth y m then
        some (civilDays y m d)
      else none
    else none
  | _ => none

/-- Model of `date.setHours(0, 0, 0, 0)` on an instant `t` (minutes since
epoch, UTC): the local time-of-day is zeroed, keeping the local calendar
day. -/
def zeroLocalTime (tz t : Int) : Int :=
  let loc := t + tz
  1440 * loc.fdiv 1440 - tz

/-- Local calendar day (as a day count since the epoch) of an instant. -/
def localDay (tz t : Int) : Int :=
  (t + tz).fdiv 1440

/-- Model of `isDateNotInPast` (`main.js:268-276`): an empty string is
falsy and rejected; otherwise the parsed instant (UTC midnight of the
denoted day, or NaN) and the current instant `now` are both truncated with
`setHours(0,0,0,0)` and compared; every comparison against NaN is false. -/
def isDateNotInPast (tz now : Int) (dateString : String) : Bool :=
  if dateString.isEmpty then false
  else match parseDateOnly dateString with
    | none => false
    | some day => decide (zeroLocalTime tz now ≤ zeroLocalTime tz (1440 * day))

/-- Model of `isEndDateAfterStartDate` (`main.js:284-289`): both strings
must be non-falsy; the parsed instants are compared strictly, and any NaN
comparison is false. -/
def isEndDateAfterStartDate (startDate endDate : String) : Bool :=
  if startDate.isEmpty || endDate.isEmpty then false
  else match parseDateOnly startDate, parseDateOnly endDate with
    | some s, some e => decide (1440 * s < 1440 * e)
    | _, _ => false

/-!
## Persistent store (`main.js:6-29`)

The store is the blob under the fixed key `fitCRM_clients` (`Option
String`; `none` when absent).  `JSON.stringify` is modelled exactly on the
values the application writes — an array of client objects with the key
order of the object literal at `main.js:544` — including JSON string
escaping.  `JSON.parse` is modelled on that same grammar (the model parser
rejects some strings that a full JSON parser would accept; the claims only
require that parse failure yields the empty list, and that parsing inverts
printing). -/

/-- Lower-case hexadecimal digit, as `JSON.stringify` emits in `\u00XX`
escapes. -/
def hexDigitChar (n : Nat) : Char :=
  if n < 10 then Char.ofNat (48 + n) else Char.ofNat (87 + n)

/-- JSON escaping of one character, per `JSON.stringify`: quote and
backslash are escaped, control characters use the short escapes or
`\u00XX`, everything else is emitted literally. -/
def escapeChar (c : Char) : List Char :=
  if c = '"' then ['\\', '"']
  else if c = '\\' then ['\\', '\\']
  else if c = '\x08' then ['\\', 'b']
  else if c = '\x09' then ['\\', 't']
  else if c = '\x0a' then ['\\', 'n']
  else if c = '\x0c' then ['\\', 'f']
  else if c = '\x0d' then ['\\', 'r']
  else if c.toNat < 32 then
    ['\\', 'u', '0', '0', hexDigitChar (c.toNat / 16), hexDigitChar (c.toNat % 16)]
  else [c]

/-- JSON escaping of a character sequence. -/
def escapeList : List Char → List Char
  | [] => []
  | c :: cs => escapeChar c ++ escapeList cs

/-- Printed form of a JSON string literal. -/
def printJsonString (s : String) : List Char :=
  '"' :: (escapeList s.data ++ ['"'])

/-- Decimal digit characters of a natural number, most significant first
(the form `JSON.stringify` gives an integer-valued number). -/
def natDigits (n : Nat) : List Char :=
  if n < 10 then [Char.ofNat (48 + n)]
  else natDigits (n / 10) ++ [Char.ofNat (48 + n % 10)]
  decreasing_by exact Nat.div_lt_self (by omega) (by omega)

/-- Printed form of one client object, with the exact key order of the
object literal at `main.js:544-554`. -/
def printClient (c : Client) : List Char :=
  ("\x7b\"id\":").data ++ natDigits c.id ++
  (",\"fullName\":").data ++ printJsonString c.fullName ++
  (",\"age\":").data ++ printJsonString c.age ++
  (",\"gender\":").data ++ printJsonString c.gender ++
  (",\"email\":").data ++ printJsonString c.email ++
  (",\"phone\":").data ++ printJsonString c.phone ++
  (",\"goal\":").data ++ printJsonString c.goal ++
  (",\"startDate\":").data ++ printJsonString c.startDate ++
  (",\"endDate\":").data ++ printJsonString c.endDate ++ ['\x7d']

/-- Printed form of the elements of a client array, comma-separated. -/
def printClientsInner : List Client → List Char
  | [] => []
  | [c] => printClient c
  | c :: cs => printClient c ++ ',' :: printClientsInner cs

/-- Model of `JSON.stringify(clients)` (`main.js:28`). -/
def stringifyClients (l : List Client) : String :=
  String.mk ('[' :: (printClientsInner l ++ [']']))

/-- Pair map helper for parsers: prepend a character to the parsed
content. -/
def consFst (c : Char) (p : List Char × List Char) : List Char × List Char :=
  (c :: p.1, p.2)

/-- Value of a hexadecimal digit character, lower- or upper-case. -/
def hexVal (c : Char) : Option Nat :=
  if '0' ≤ c ∧ c ≤ '9' then some (c.toNat - 48)
  else if 'a' ≤ c ∧ c ≤ 'f' then some (c.toNat - 87)
  else if 'A' ≤ c ∧ c ≤ 'F' then some (c.toNat - 55)
  else none

/-- JSON string-literal body parser: consumes characters up to the closing
quote, decoding the escape sequences, and returns the decoded content and
the remaining input. -/
def parseStringBody : List Char → Option (List Char × List Char)
  | [] => none
  | c :: rest =>
    if c = '"' then some ([], rest)
    else if c = '\\' then
      match rest with
      | [] => none
      | e :: rest2 =>
        if e = '"' then consFst '"' <$> parseStringBody rest2
        else if e = '\\' then consFst '\\' <$> parseStringBody rest2
        else if e = '/' then consFst '/' <$> parseStringBody rest2
        else if e = 'b' then consFst '\x08' <$> parseStringBody rest2
        else if e = 't' then consFst '\x09' <$> parseStringBody rest2
        else if e = 'n' then consFst '\x0a' <$> parseStringBody rest2
        else if e = 'f' then consFst '\x0c' <$> parseStringBody rest2
        else if e = 'r' then consFst '\x0d' <$> parseStringBody rest2
        else if e = 'u' then
          match rest2 with
          | h1 :: h2 :: h3 :: h4 :: rest3 =>
            match hexVal h1, hexVal h2, hexVal h3, hexVal h4 with
            | some a, some b, some cc, some d =>
              consFst (Char.ofNat (4096 * a + 256 * b + 16 * cc + d)) <$>
                parseStringBody rest3
            | _, _, _, _ => none
          | _ => none
        else none
    else consFst c <$> parseStringBody rest

/-- JSON string-literal parser (expects the opening quote). -/
def parseJsonString (cs : List Char) : Option (String × List Char) :=
  match cs with
  | '"' :: rest => (fun p => (String.mk p.1, p.2)) <$> parseStringBody rest
  | _ => none

/-- Parser for a decimal natural-number literal. -/
def parseNatLit (cs : List Char) : Option (Nat × List Char) :=
  let ds := cs.takeWhile Char.isDigit
  if ds.isEmpty then none
  else some (digitsVal ds, cs.dropWhile Char.isDigit)

/-- Consume an expected literal character sequence. -/
def expectLit : List Char → List Char → Option (List Char)
  | [], input => some input
  | l :: ls, input =>
    match input with
    | [] => none
    | c :: cs => if c = l then expectLit ls cs else none

/-- Parser for one `"key":"string"` field: the literal key part followed by
a JSON string literal. -/
def parseField (key : String) (cs : List Char) : Option (String × List Char) := do
  let cs ← expectLit key.data cs
  parseJsonString cs

/-- Parser for one client object in the printed key order. -/
def parseClient (cs : List Char) : Option (Client × List Char) := do
  let cs ← expectLit ("\x7b\"id\":").data cs
  let (id, cs) ← parseNatLit cs
  let (fullName, cs) ← parseField ",\"fullName\":" cs
  let (age, cs) ← parseField ",\"age\":" cs
  let (gender, cs) ← parseField ",\"gender\":" cs
  let (email, cs) ← parseField ",\"email\":" cs
  let (phone, cs) ← parseField ",\"phone\":" cs
  let (goal, cs) ← parseField ",\"goal\":" cs
  let (startDate, cs) ← parseField ",\"startDate\":" cs
  let (endDate, cs) ← parseField ",\"endDate\":" cs
  let cs ← expectLit ['\x7d'] cs
  some (⟨id, fullName, age, gender, email, phone, goal, startDate, endDate⟩, cs)

/-- Parser for a nonempty comma-separated client sequence terminated by the
closing bracket at the very end of input.  Fuel bounds the recursion; any
fuel of at least the element count suffices. -/
def parseClientSeq (fuel : Nat) (cs : List Char) : Option (List Client) :=
  match fuel with
  | 0 => none
  | fuel + 1 => do
    let (c, rest) ← parseClient cs
    match rest with
    | [']'] => some [c]
    | ',' :: rest2 => (c :: ·) <$> parseClientSeq fuel rest2
    | _ => none

/-- Model of `JSON.parse` on the grammar of stored blobs: a JSON array of
client objects. -/
def parseClients (s : String) : Option (List Client) :=
  match s.data with
  | '[' :: ']' :: rest => if rest.isEmpty then some [] else none
  | '[' :: rest => parseClientSeq (rest.length + 1) rest
  | _ => none

/-- Model of `loadClients` (`main.js:12-21`): an absent or empty blob
(falsy `stored`) yields `[]`; a blob that fails to parse is caught and
yields `[]` (the error is logged to the console, not surfaced). -/
def loadClients (store : Option String) : List Client :=
  match store with
  | none => []
  | some s =>
    if s.isEmpty then []
    else match parseClients s with
      | some l => l
      | none => []

/-- Model of `saveClients` (`main.js:27-29`): overwrite the blob with the
serialized collection. -/
def saveClients (l : List Client) : Option String :=
  some (stringifyClients l)

/-!
## Submit handler (`main.js:494-594`)

The click handler reads the nine form fields, validates them in a fixed
order (each failure alerts and returns before any mutation), then either
appends a new client (Add mode, `editingId = null`) or replaces the fields
of the first client whose id equals `editingId` (Edit mode), saves, and
clears the form. -/

/-- Raw form field values as read at `main.js:495-503` (the handler trims
most of them itself). -/
structure FormInput where
  fullName : String
  age : String
  gender : String
  email : String
  phone : String
  goal : String
  goalFree : String
  startDate : String
  endDate : String
  deriving Repr, DecidableEq

/-- Mutable page state touched by the handlers: the in-memory repository,
the Add/Edit mode flag, and the persistent blob. -/
structure AppState where
  clients : List Client
  editingId : Option Nat
  store : Option String
  deriving Repr, DecidableEq

/-- The six validation alerts, in the order the handler tests them. -/
inductive SubmitError where
  | missingRequired
  | badEmail
  | badAge
  | badPhone
  | startInPast
  | endNotAfterStart
  deriving Repr, DecidableEq

/-- Model of `const finalGoal = goal || goalFree` (`main.js:505`) on the
trimmed dropdown value and trimmed free-text value: the dropdown value
when it is non-empty (truthy), otherwise the free-text value. -/
def finalGoalOf (f : FormInput) : String :=
  if (jsTrim f.goal).isEmpty then jsTrim f.goalFree else jsTrim f.goal

/-- The validation sequence of the handler (`main.js:508-537`): presence of
the required fields, then email format, then age range (only when age was
given), then phone format, then the start-date check, then the end-date
check; the first failure is alerted. -/
def validateForm (tz now : Int) (f : FormInput) : Option SubmitError :=
  if (jsTrim f.fullName).isEmpty || (jsTrim f.email).isEmpty ||
      (jsTrim f.phone).isEmpty || (finalGoalOf f).isEmpty ||
      f.startDate.isEmpty || f.endDate.isEmpty then
    some .missingRequired
  else if !isValidEmail (jsTrim f.email) then some .badEmail
  else if !(jsTrim f.age).isEmpty && !isValidAge (jsTrim f.age) then some .badAge
  else if !isValidPhone (jsTrim f.phone) then some .badPhone
  else if !isDateNotInPast tz now f.startDate then some .startInPast
  else if !isEndDateAfterStartDate f.startDate f.endDate then some .endNotAfterStart
  else none

/-- The client object built in the ADD branch (`main.js:544-554`): id is
the creation timestamp `Date.now()`, the other fields are the (trimmed
where the handler trims) form values. -/
def clientFromForm (newId : Nat) (f : FormInput) : Client where
  id := newId
  fullName := jsTrim f.fullName
  age := jsTrim f.age
  gender := f.gender
  email := jsTrim f.email
  phone := jsTrim f.phone
  goal := finalGoalOf f
  startDate := f.startDate
  endDate := f.endDate

/-- The field replacement of the UPDATE branch (`main.js:562-572`): spread
of the old record with every submitted field overwritten — `id` is not in
the spread and is preserved. -/
def applyEdit (f : FormInput) (c : Client) : Client :=
  { c with
    fullName := jsTrim f.fullName
    age := jsTrim f.age
    gender := f.gender
    email := jsTrim f.email
    phone := jsTrim f.phone
    goal := finalGoalOf f
    startDate := f.startDate
    endDate := f.endDate }

/-- Replace the first element satisfying `p` by its image under `g`, in
place; the list is unchanged when nothing matches.  This is the semantics
of `findIndex` followed by an indexed assignment (`main.js:560-572`). -/
def updateFirst {α : Type} (p : α → Bool) (g : α → α) : List α → List α
  | [] => []
  | a :: l => if p a then g a :: l else a :: updateFirst p g l

/-- Observable outcome of one submit: the post-state, the validation alert
raised (if any), and whether the success path ran (`clearForm` etc.). -/
structure SubmitResult where
  state : AppState
  error : Option SubmitError
  formCleared : Bool
  deriving Repr, DecidableEq

/-- Model of the whole click handler (`main.js:494-594`).  `tz`/`now` feed
the date validators, `nowMs` is the `Date.now()` timestamp used as the new
id in Add mode.  On any validation failure the handler returns before
touching state; on success it appends (Add) or updates in place (Edit),
always resetting `editingId` to `null` and re-serializing the collection. -/
def submit (tz now : Int) (nowMs : Nat) (st : AppState) (f : FormInput) :
    SubmitResult :=
  match validateForm tz now f with
  | some e => ⟨st, some e, false⟩
  | none =>
    match st.editingId with
    | none =>
      let clients := st.clients ++ [clientFromForm nowMs f]
      ⟨⟨clients, none, saveClients clients⟩, none, true⟩
    | some eid =>
      let clients := updateFirst (fun c => c.id == eid) (applyEdit f) st.clients
      ⟨⟨clients, none, saveClients clients⟩, none, true⟩

/-- Spec-side reading of each validation rule in isolation (`true` = the
rule is satisfied), used to state that the handler reports the *first*
violated rule. -/
def rulePasses (tz now : Int) (f : FormInput) : SubmitError → Bool
  | .missingRequired =>
    !((jsTrim f.fullName).isEmpty || (jsTrim f.email).isEmpty ||
      (jsTrim f.phone).isEmpty || (finalGoalOf f).isEmpty ||
      f.startDate.isEmpty || f.endDate.isEmpty)
  | .badEmail => isValidEmail (jsTrim f.email)
  | .badAge => (jsTrim f.age).isEmpty || isValidAge (jsTrim f.age)
  | .badPhone => isValidPhone (jsTrim f.phone)
  | .startInPast => isDateNotInPast tz now f.startDate
  | .endNotAfterStart => isEndDateAfterStartDate f.startDate f.endDate

/-- The fixed order in which the handler tests the rules. -/
def ruleOrder : List SubmitError :=
  [.missingRequired, .badEmail, .badAge, .badPhone, .startInPast, .endNotAfterStart]

/-!
## Search (`main.js:627-643`)
-/

/-- Model of `applySearch`: the query is the trimmed, lower-cased content
of the search box; an empty query renders the full repository, otherwise
the rows whose (truthy) `fullName` contains the query case-insensitively.
The repository itself is only read. -/
def applySearch (rawQuery : String) (clients : List Client) : List Client :=
  let query := jsToLower (jsTrim rawQuery)
  if query.isEmpty then clients
  else clients.filter fun c =>
    !c.fullName.isEmpty && jsIncludes (jsToLower c.fullName) query

/-!
## Table actions (`main.js:670-740`)
-/

/-- Observable outcome of a delete click: post-repository, post-store, and
the console messages emitted. -/
structure DeleteResult where
  clients : List Client
  store : Option String
  logs : List String
  deriving Repr, DecidableEq

/-- Model of the delete branch (`main.js:681-699`): an unknown id returns
without any console output; a declined confirmation returns unchanged; an
accepted confirmation keeps exactly the clients with a different id and
saves. -/
def handleDelete (clients : List Client) (store : Option String)
    (idToDelete : Nat) (confirmDelete : Bool) : DeleteResult :=
  match clients.find? (fun c => c.id == idToDelete) with
  | none => ⟨clients, store, []⟩
  | some _ =>
    if !confirmDelete then ⟨clients, store, []⟩
    else
      let remaining := clients.filter fun c => c.id != idToDelete
      ⟨remaining, saveClients remaining, []⟩

/-- Model of the edit branch (`main.js:702-712`), which — unlike delete —
does log its lookup failure (`console.warn("No client found for id", …)`)
before returning. -/
def handleEditClick (clients : List Client) (editingId : Option Nat)
    (idToEdit : Nat) : Option Nat × List String :=
  match clients.find? (fun c => c.id == idToEdit) with
  | none => (editingId, ["No client found for id"])
  | some c => (some c.id, [])

/-!
## Exercise selection (`main.js:338-377`)
-/

/-- One entry of an exercise's `translations` array: a numeric language id
and a possibly-missing name. -/
structure ExTranslation where
  language : Int
  name : Option String
  deriving Repr, DecidableEq

/-- One item of the API's `results` array; `translations` is `none` when
the field is absent or not an array. -/
structure Exercise where
  exId : Nat
  translations : Option (List ExTranslation)
  deriving Repr, DecidableEq

/-- Truthiness of a translation's `name` field. -/
def truthyName : Option String → Bool
  | none => false
  | some s => !s.isEmpty

/-- The predicate `t.language === 2 && t.name` used both in the filter and
in the selection loop. -/
def isEnglishNamed (t : ExTranslation) : Bool :=
  t.language == 2 && truthyName t.name

/-- The filter at `main.js:338-343`: keep exercises whose translations
array has some English entry with a truthy name. -/
def hasEnglishFilter (e : Exercise) : Bool :=
  match e.translations with
  | some ts => ts.any isEnglishNamed
  | none => false

/-- The per-pick check at `main.js:362-369`: find the first English entry
with a truthy name and require its trimmed name to be non-empty. -/
def hasEnglishName (e : Exercise) : Bool :=
  match e.translations with
  | some ts =>
    match ts.find? isEnglishNamed with
    | some t =>
      match t.name with
      | some s => !(jsTrim s).isEmpty
      | none => false
    | none => false
  | none => false

/-- The `while` loop at `main.js:358-377`: while fewer than 5 exercises
are selected and some remain available, draw a random index, select the
exercise if it has a valid English name, and in every case remove it from
the available pool (`splice`).  `rand k` models the `k`-th value of
`Math.floor(Math.random() * available.length)` — reduced `mod` the pool
size so that every choice sequence is covered. -/
def selectLoop (rand : Nat → Nat) (k : Nat) (selected avail : List Exercise) :
    List Exercise :=
  if h : selected.length < 5 ∧ avail ≠ [] then
    let i := rand k % avail.length
    have hi : i < avail.length := Nat.mod_lt _ (List.length_pos.mpr h.2)
    let e := avail.get ⟨i, hi⟩
    let selected2 := if hasEnglishName e then selected ++ [e] else selected
    selectLoop rand (k + 1) selected2 (avail.eraseIdx i)
  else selected
termination_by avail.length
decreasing_by
  simp only [List.length_eraseIdx, hi, if_pos]
  omega

/-- The filtered set `exercisesWithEnglish` (`main.js:338`). -/
def exercisesWithEnglish (results : List Exercise) : List Exercise :=
  results.filter hasEnglishFilter

/-- The selection performed for one fetched result set: the loop starts
from an empty selection over a copy of the filtered set. -/
def selectSessionExercises (rand : Nat → Nat) (results : List Exercise) :
    List Exercise :=
  selectLoop rand 0 [] (exercisesWithEnglish results)

/-!
## Helper lemmas
-/

theorem updateFirst_nomatch {α : Type} (p : α → Bool) (g : α → α) :
    ∀ l : List α, (∀ a ∈ l, p a = false) → updateFirst p g l = l
  | [], _ => rfl
  | a :: t, h => by
    have ha := h a (List.mem_cons_self a t)
    simp only [updateFirst, ha, Bool.false_eq_true, if_false]
    rw [updateFirst_nomatch p g t fun b hb => h b (List.mem_cons_of_mem a hb)]

theorem updateFirst_decomp {α : Type} (p : α → Bool) (g : α → α) :
    ∀ l : List α, (∃ a ∈ l, p a = true) →
    ∃ pre x post, l = pre ++ x :: post ∧ (∀ a ∈ pre, p a = false) ∧
      p x = true ∧ updateFirst p g l = pre ++ g x :: post
  | [], h => absurd h (by simp)
  | a :: t, h => by
    cases ha : p a with
    | true =>
      exact ⟨[], a, t, rfl, by simp, ha, by simp [updateFirst, ha]⟩
    | false =>
      have h2 : ∃ b ∈ t, p b = true := by
        obtain ⟨b, hb, hpb⟩ := h
        cases List.mem_cons.mp hb with
        | inl he => rw [he, ha] at hpb; exact absurd hpb (by simp)
        | inr hm => exact ⟨b, hm, hpb⟩
      obtain ⟨pre, x, post, heq, hpre, hx, hupd⟩ := updateFirst_decomp p g t h2
      refine ⟨a :: pre, x, post, by rw [heq]; rfl, ?_, hx, ?_⟩
      · intro b hb
        cases List.mem_cons.mp hb with
        | inl he => rw [he]; exact ha
        | inr hm => exact hpre b hm
      · simp [updateFirst, ha, hupd]

theorem takeWhile_all_append {α : Type} (p : α → Bool) :
    ∀ (xs ys : List α), (∀ a ∈ xs, p a = true) →
    (xs ++ ys).takeWhile p = xs ++ ys.takeWhile p
  | [], ys, _ => by simp
  | a :: t, ys, h => by
    simp only [List.cons_append, List.takeWhile_cons, h a (List.mem_cons_self a t)]
    rw [takeWhile_all_append p t ys fun b hb => h b (List.mem_cons_of_mem a hb)]
    simp

theorem dropWhile_all_append {α : Type} (p : α → Bool) :
    ∀ (xs ys : List α), (∀ a ∈ xs, p a = true) →
    (xs ++ ys).dropWhile p = ys.dropWhile p
  | [], ys, _ => by simp
  | a :: t, ys, h => by
    simp only [List.cons_append, List.dropWhile_cons, h a (List.mem_cons_self a t)]
    rw [dropWhile_all_append p t ys fun b hb => h b (List.mem_cons_of_mem a hb)]
    simp

theorem char_digit_toNat {d : Nat} (hd : d < 10) :
    (Char.ofNat (48 + d)).toNat = 48 + d := by
  interval_cases d <;> decide

theorem char_digit_isDigit {d : Nat} (hd : d < 10) :
    (Char.ofNat (48 + d)).isDigit = true := by
  interval_cases d <;> decide

theorem natDigits_all_digits (n : Nat) : ∀ c ∈ natDigits n, c.isDigit = true := by
  induction n using Nat.strong_induction_on with
  | _ n ih =>
    rw [natDigits]
    split
    case isTrue h =>
      intro c hc
      simp only [List.mem_singleton] at hc
      rw [hc]; exact char_digit_isDigit h
    case isFalse h =>
      intro c hc
      rcases List.mem_append.mp hc with h1 | h2
      · exact ih (n / 10) (Nat.div_lt_self (by omega) (by omega)) c h1
      · simp only [List.mem_singleton] at h2
        rw [h2]; exact char_digit_isDigit (Nat.mod_lt _ (by omega))

theorem natDigits_ne_nil (n : Nat) : natDigits n ≠ [] := by
  rw [natDigits]; split <;> simp

theorem digitsVal_append_last (xs : List Char) (c : Char) :
    digitsVal (xs ++ [c]) = 10 * digitsVal xs + (c.toNat - 48) := by
  simp [digitsVal, List.foldl_append]

theorem digitsVal_natDigits (n : Nat) : digitsVal (natDigits n) = n := by
  induction n using Nat.strong_induction_on with
  | _ n ih =>
    rw [natDigits]
    split
    case isTrue h =>
      show digitsVal [Char.ofNat (48 + n)] = n
      simp [digitsVal, char_digit_toNat h]
    case isFalse h =>
      rw [digitsVal_append_last,
        ih (n / 10) (Nat.div_lt_self (by omega) (by omega)),
        char_digit_toNat (Nat.mod_lt _ (by omega))]
      omega

theorem parseNatLit_print (n : Nat) (c0 : Char) (rest : List Char)
    (hc : c0.isDigit = false) :
    parseNatLit (natDigits n ++ c0 :: rest) = some (n, c0 :: rest) := by
  unfold parseNatLit
  rw [takeWhile_all_append _ _ _ (natDigits_all_digits n),
    dropWhile_all_append _ _ _ (natDigits_all_digits n),
    List.takeWhile_cons, List.dropWhile_cons]
  simp [hc, natDigits_ne_nil, digitsVal_natDigits]

theorem expectLit_append (ls rest : List Char) :
    expectLit ls (ls ++ rest) = some rest := by
  induction ls with
  | nil => rfl
  | cons a t ih => simp [expectLit, ih]

theorem hexVal_hexDigitChar {x : Nat} (hx : x < 16) :
    hexVal (hexDigitChar x) = some x := by
  interval_cases x <;> decide

theorem parseStringBody_escape : ∀ (cs rest : List Char),
    parseStringBody (escapeList cs ++ '"' :: rest) = some (cs, rest)
  | [], rest => by
    show parseStringBody ('"' :: rest) = _
    rw [parseStringBody.eq_def]; simp
  | c :: cs, rest => by
    have ih := parseStringBody_escape cs rest
    show parseStringBody ((escapeChar c ++ escapeList cs) ++ '"' :: rest) = _
    rw [List.append_assoc]
    by_cases h1 : c = '"'
    · subst h1
      show parseStringBody ('\\' :: '"' :: (escapeList cs ++ '"' :: rest)) = _
      rw [parseStringBody.eq_def]; simp [ih, consFst]
    · by_cases h2 : c = '\\'
      · subst h2
        show parseStringBody ('\\' :: '\\' :: (escapeList cs ++ '"' :: rest)) = _
        rw [parseStringBody.eq_def]; simp [ih, consFst]
      · by_cases h3 : c = '\x08'
        · subst h3
          show parseStringBody ('\\' :: 'b' :: (escapeList cs ++ '"' :: rest)) = _
          rw [parseStringBody.eq_def]; simp [ih, consFst]
        · by_cases h4 : c = '\x09'
          · subst h4
            show parseStringBody ('\\' :: 't' :: (escapeList cs ++ '"' :: rest)) = _
            rw [parseStringBody.eq_def]; simp [ih, consFst]
          · by_cases h5 : c = '\x0a'
            · subst h5
              show parseStringBody ('\\' :: 'n' :: (escapeList cs ++ '"' :: rest)) = _
              rw [parseStringBody.eq_def]; simp [ih, consFst]
            · by_cases h6 : c = '\x0c'
              · subst h6
                show parseStringBody ('\\' :: 'f' :: (escapeList cs ++ '"' :: rest)) = _
                rw [parseStringBody.eq_def]; simp [ih, consFst]
              · by_cases h7 : c = '\x0d'
                · subst h7
                  show parseStringBody ('\\' :: 'r' :: (escapeList cs ++ '"' :: rest)) = _
                  rw [parseStringBody.eq_def]; simp [ih, consFst]
                · by_cases h8 : c.toNat < 32
                  · have hdiv : c.toNat / 16 < 16 := by omega
                    have hmod : c.toNat % 16 < 16 := Nat.mod_lt _ (by omega)
                    have h0 : hexVal '0' = some 0 := by decide
                    simp only [escapeChar, if_neg h1, if_neg h2, if_neg h3, if_neg h4,
                      if_neg h5, if_neg h6, if_neg h7, if_pos h8, List.cons_append,
                      List.nil_append]
                    rw [parseStringBody.eq_def]
                    simp only [reduceIte, h0, hexVal_hexDigitChar hdiv,
                      hexVal_hexDigitChar hmod, ih]
                    have harith : 16 * (c.toNat / 16) + c.toNat % 16 = c.toNat := by
                      omega
                    simp [consFst, harith, Char.ofNat_toNat]
                  · simp only [escapeChar, if_neg h1, if_neg h2, if_neg h3, if_neg h4,
                      if_neg h5, if_neg h6, if_neg h7, if_neg h8, List.cons_append,
                      List.nil_append]
                    rw [parseStringBody.eq_def]
                    simp only [if_neg h1, if_neg h2]
                    rw [ih]
                    simp [consFst]

theorem parseJsonString_print (s : String) (rest : List Char) :
    parseJsonString (printJsonString s ++ rest) = some (s, rest) := by
  obtain ⟨d⟩ := s
  show parseJsonString (('"' :: (escapeList d ++ ['"'])) ++ rest) = _
  rw [List.cons_append, List.append_assoc, List.singleton_append,
    parseJsonString.eq_def]
  simp [parseStringBody_escape]

theorem parseField_print (key : String) (s : String) (rest : List Char) :
    parseField key (key.data ++ (printJsonString s ++ rest)) = some (s, rest) := by
  unfold parseField
  rw [expectLit_append]
  show parseJsonString (printJsonString s ++ rest) = some (s, rest)
  exact parseJsonString_print s rest


theorem takeWhile_digit_comma (Z : List Char) :
    (',' :: Z).takeWhile Char.isDigit = [] := by
  rw [List.takeWhile_cons, if_neg (by decide)]

theorem dropWhile_digit_comma (Z : List Char) :
    (',' :: Z).dropWhile Char.isDigit = ',' :: Z := by
  rw [List.dropWhile_cons, if_neg (by decide)]

theorem parseNatLit_print2 (n : Nat) (Z : List Char) :
    parseNatLit (natDigits n ++ ',' :: Z) = some (n, ',' :: Z) := by
  unfold parseNatLit
  rw [takeWhile_all_append _ _ _ (natDigits_all_digits n),
    dropWhile_all_append _ _ _ (natDigits_all_digits n),
    takeWhile_digit_comma, dropWhile_digit_comma]
  simp [natDigits_ne_nil, digitsVal_natDigits]

theorem parseClient_print (c : Client) (rest : List Char) :
    parseClient (printClient c ++ rest) = some (c, rest) := by
  obtain ⟨cid, fn, ag, ge, em, ph, go, sd, ed⟩ := c
  simp only [printClient, parseClient, parseField, List.append_assoc,
    List.cons_append, List.singleton_append, List.nil_append, expectLit,
    reduceIte, parseNatLit_print2, parseJsonString_print, Option.some_bind,
    Option.bind_eq_bind]

theorem printClient_head (c : Client) : ∃ t, printClient c = '\x7b' :: t := by
  obtain ⟨cid, fn, ag, ge, em, ph, go, sd, ed⟩ := c
  simp only [printClient, List.append_assoc, List.cons_append]
  exact ⟨_, rfl⟩

theorem printClientsInner_head (c : Client) (t : List Client) :
    ∃ Y, printClientsInner (c :: t) = '\x7b' :: Y := by
  obtain ⟨tc, htc⟩ := printClient_head c
  cases t with
  | nil => exact ⟨tc, htc⟩
  | cons c2 t2 =>
    exact ⟨tc ++ ',' :: printClientsInner (c2 :: t2), by simp [printClientsInner, htc]⟩

theorem length_le_printClientsInner :
    ∀ l : List Client, l.length ≤ (printClientsInner l).length
  | [] => Nat.le_refl 0
  | [c] => by
    obtain ⟨t, ht⟩ := printClient_head c
    simp [printClientsInner, ht]
  | c :: c2 :: t => by
    have ih := length_le_printClientsInner (c2 :: t)
    obtain ⟨tc, htc⟩ := printClient_head c
    simp only [printClientsInner, htc, List.length_append, List.length_cons] at ih ⊢
    omega

theorem parseClientSeq_print :
    ∀ (l : List Client) (fuel : Nat), l ≠ [] → l.length ≤ fuel →
    parseClientSeq fuel (printClientsInner l ++ [']']) = some l
  | [], _, h, _ => absurd rfl h
  | [c], fuel, _, hf => by
    cases fuel with
    | zero => simp at hf
    | succ fuel =>
      simp only [printClientsInner]
      unfold parseClientSeq
      rw [parseClient_print]
      simp
  | c :: c2 :: t, fuel, _, hf => by
    cases fuel with
    | zero => simp at hf
    | succ fuel =>
      have ih := parseClientSeq_print (c2 :: t) fuel (by simp)
        (by simp only [List.length_cons] at hf ⊢; omega)
      simp only [printClientsInner]
      rw [List.append_assoc, List.cons_append]
      unfold parseClientSeq
      rw [parseClient_print]
      simp [ih]

theorem parseClients_stringify (l : List Client) :
    parseClients (stringifyClients l) = some l := by
  cases l with
  | nil => rfl
  | cons c t =>
    obtain ⟨Y, hY⟩ := printClientsInner_head c t
    show parseClients (String.mk ('[' :: (printClientsInner (c :: t) ++ [']']))) = _
    rw [hY]
    unfold parseClients
    show (match '[' :: ('\x7b' :: Y ++ [']']) with
      | '[' :: ']' :: rest => if rest.isEmpty then some [] else none
      | '[' :: rest => parseClientSeq (rest.length + 1) rest
      | _ => none) = some (c :: t)
    simp only [List.cons_append]
    rw [show (match '[' :: '\x7b' :: (Y ++ [']']) with
      | '[' :: ']' :: rest => if rest.isEmpty then some [] else none
      | '[' :: rest => parseClientSeq (rest.length + 1) rest
      | _ => none) = parseClientSeq (('\x7b' :: (Y ++ [']'])).length + 1)
        ('\x7b' :: (Y ++ [']'])) from rfl]
    rw [show ('\x7b' :: (Y ++ [']']) : List Char) = ('\x7b' :: Y) ++ [']'] from rfl,
      ← hY]
    apply parseClientSeq_print (c :: t) _ (by simp)
    have h1 := length_le_printClientsInner (c :: t)
    simp only [List.length_append, List.length_cons, hY] at h1 ⊢
    omega

theorem stringifyClients_isEmpty (l : List Client) :
    (stringifyClients l).isEmpty = false := by
  rw [Bool.eq_false_iff]
  intro h
  have h2 := (String.isEmpty_iff _).mp h
  have h3 := congrArg String.data h2
  simp [stringifyClients] at h3

theorem loadClients_saveClients (l : List Client) :
    loadClients (saveClients l) = l := by
  show (if (stringifyClients l).isEmpty = true then []
    else match parseClients (stringifyClients l) with
      | some x => x
      | none => []) = l
  rw [stringifyClients_isEmpty, if_neg (by simp), parseClients_stringify]

theorem selectLoop_spec (rand : Nat → Nat) :
    ∀ (n : Nat) (avail : List Exercise), avail.length ≤ n →
    ∀ (k : Nat) (selected : List Exercise), selected.length ≤ 5 →
    ∃ picked, selectLoop rand k selected avail = selected ++ picked ∧
      picked.Subperm avail ∧ (selected ++ picked).length ≤ 5 := by
  intro n
  induction n with
  | zero =>
    intro avail hn k selected hsel
    have hav : avail = [] := by
      cases avail with
      | nil => rfl
      | cons a t => simp at hn
    subst hav
    rw [selectLoop]
    simp only [ne_eq, not_true_eq_false, and_false, dite_false]
    exact ⟨[], by simp, List.nil_subperm, by simpa using hsel⟩
  | succ n ih =>
    intro avail hn k selected hsel
    rw [selectLoop]
    split
    case isFalse h =>
      exact ⟨[], by simp, List.nil_subperm, by simpa using hsel⟩
    case isTrue h =>
      simp only []
      have hpos : 0 < avail.length := List.length_pos.mpr h.2
      have hi : rand k % avail.length < avail.length := Nat.mod_lt _ hpos
      have hlen : (avail.eraseIdx (rand k % avail.length)).length ≤ n := by
        rw [List.length_eraseIdx]
        simp only [hi, if_pos]
        omega
      have hsplit : avail.take (rand k % avail.length) ++
          avail.get ⟨rand k % avail.length, hi⟩ ::
          avail.drop (rand k % avail.length + 1) = avail := by
        rw [List.get_cons_drop, List.take_append_drop]
      have hperm : (avail.get ⟨rand k % avail.length, hi⟩ ::
          avail.eraseIdx (rand k % avail.length)).Perm avail := by
        conv_rhs => rw [← hsplit]
        rw [List.eraseIdx_eq_take_drop_succ]
        exact (List.perm_middle).symm
      by_cases hEng : hasEnglishName (avail.get ⟨rand k % avail.length, hi⟩)
      · rw [if_pos hEng]
        obtain ⟨picked, hp1, hp2, hp3⟩ := ih _ hlen (k + 1) (selected ++ [avail.get ⟨rand k % avail.length, hi⟩])
          (by simp only [List.length_append, List.length_cons, List.length_nil]; omega)
        refine ⟨avail.get ⟨rand k % avail.length, hi⟩ :: picked, ?_, ?_, ?_⟩
        · rw [hp1, List.append_assoc]
          rfl
        · exact ((List.subperm_cons _).mpr hp2).trans hperm.subperm
        · simp only [List.length_append, List.length_cons] at hp3 ⊢
          omega
      · rw [if_neg hEng]
        obtain ⟨picked, hp1, hp2, hp3⟩ := ih _ hlen (k + 1) selected hsel
        refine ⟨picked, hp1, ?_, hp3⟩
        exact hp2.trans (List.eraseIdx_sublist avail _).subperm


theorem validateForm_eq_find (tz now : Int) (f : FormInput) :
    validateForm tz now f = ruleOrder.find? (fun r => !rulePasses tz now f r) := by
  unfold validateForm
  simp only [ruleOrder, List.find?, rulePasses, Bool.not_not, Bool.not_or]
  cases hc1 : ((jsTrim f.fullName).isEmpty || (jsTrim f.email).isEmpty ||
      (jsTrim f.phone).isEmpty || (finalGoalOf f).isEmpty ||
      f.startDate.isEmpty || f.endDate.isEmpty)
  case true => simp [hc1]
  case false =>
  simp only [hc1, Bool.false_eq_true, if_false]
  cases hc2 : (!isValidEmail (jsTrim f.email))
  case true => simp [hc1, hc2]
  case false =>
  simp only [hc2, Bool.false_eq_true, if_false]
  cases hc3 : (!(jsTrim f.age).isEmpty && !isValidAge (jsTrim f.age))
  case true => simp [hc1, hc2, hc3]
  case false =>
  simp only [hc3, Bool.false_eq_true, if_false]
  cases hc4 : (!isValidPhone (jsTrim f.phone))
  case true => simp [hc1, hc2, hc3, hc4]
  case false =>
  simp only [hc4, Bool.false_eq_true, if_false]
  cases hc5 : (!isDateNotInPast tz now f.startDate)
  case true => simp [hc1, hc2, hc3, hc4, hc5]
  case false =>
  simp only [hc5, Bool.false_eq_true, if_false]
  cases hc6 : (!isEndDateAfterStartDate f.startDate f.endDate)
  case true => simp [hc1, hc2, hc3, hc4, hc5, hc6]
  case false => simp [hc1, hc2, hc3, hc4, hc5, hc6]

/-!
## Claim theorems

Each claim of the specification audit is settled by exactly one theorem
below (plus a closed witness where the theorem carries hypotheses, or a
closed counterexample where the claim fails on the code).
-/

/-- C1 counterexample: a submission with the goal dropdown set to
`"Muscle gain"` and the free-text goal set to `"run marathon"` (both
non-empty after trimming) is accepted, and the stored goal is the
*dropdown* value, not the free-text value — `goal || goalFree` at
`main.js:505` makes the dropdown win, contradicting the claim that free
text wins. -/
theorem C1_counterexample :
    let f : FormInput := ⟨"Jane Doe", "30", "female", "jane@x.com",
      "(555) 123-4567x1", "Muscle gain", "run marathon", "2026-10-11",
      "2026-10-18"⟩
    (jsTrim f.goal).isEmpty = false ∧ (jsTrim f.goalFree).isEmpty = false ∧
    (submit 0 (1440 * 20737 + 720) 99 ⟨[], none, none⟩ f).error = none ∧
    (submit 0 (1440 * 20737 + 720) 99 ⟨[], none, none⟩ f).state.clients.map
      Client.goal = ["Muscle gain"] ∧
    ("Muscle gain" : String) ≠ "run marathon" := by decide

/-- C1 (amended): whenever the trimmed dropdown goal is non-empty, the
combined goal is the trimmed *dropdown* value (the dropdown wins and the
free-text field is overridden), and a valid Add-mode submission stores that
value in the appended record. -/
theorem C1_goal_precedence (tz now : Int) (nowMs : Nat) (st : AppState)
    (f : FormInput) (hgoal : (jsTrim f.goal).isEmpty = false) :
    finalGoalOf f = jsTrim f.goal ∧
    (validateForm tz now f = none → st.editingId = none →
      (submit tz now nowMs st f).state.clients =
        st.clients ++ [clientFromForm nowMs f] ∧
      (clientFromForm nowMs f).goal = jsTrim f.goal) := by
  have hfg : finalGoalOf f = jsTrim f.goal := by
    simp [finalGoalOf, hgoal]
  refine ⟨hfg, fun hpass hmode => ⟨?_, ?_⟩⟩
  · simp [submit, hpass, hmode]
  · simp [clientFromForm, hfg]

/-- C1 witness: the amended precedence theorem applied to a concrete valid
submission with both goal fields set. -/
theorem C1_goal_precedence_witness :
    let f : FormInput := ⟨"Jane Doe", "30", "female", "jane@x.com",
      "(555) 123-4567x1", "Muscle gain", "run marathon", "2026-10-11",
      "2026-10-18"⟩
    (submit 0 (1440 * 20737 + 720) 99 ⟨[], none, none⟩ f).state.clients =
      [clientFromForm 99 f] ∧ (clientFromForm 99 f).goal = jsTrim f.goal := by
  intro f
  have h := (C1_goal_precedence 0 (1440 * 20737 + 720) 99 ⟨[], none, none⟩ f
    (by decide)).2 (by decide) rfl
  exact ⟨by rw [h.1]; rfl, h.2⟩

/-- C2 counterexample: the new id is `Date.now()` with no uniqueness
check; submitting when the collection already holds a record with id 42
and the clock reads 42 appends a record whose id duplicates an existing
id. -/
theorem C2_counterexample :
    let old : Client := ⟨42, "Old Name", "", "", "o@o.com", "11111111111",
      "keep fit", "2026-01-01", "2027-01-01"⟩
    let f : FormInput := ⟨"Jane Doe", "30", "female", "jane@x.com",
      "(555) 123-4567x1", "", "run marathon", "2026-10-11", "2026-10-18"⟩
    (submit 0 (1440 * 20737 + 720) 42 ⟨[old], none, none⟩ f).error = none ∧
    (submit 0 (1440 * 20737 + 720) 42 ⟨[old], none, none⟩ f).state.clients.map
      Client.id = [42, 42] ∧
    (clientFromForm 42 f).id ∈ [old].map Client.id := by decide

/-- C2 (amended): every valid Add-mode submission appends exactly one new
record at the end of the collection (size +1); its id is the creation
timestamp, and it is unique among existing ids exactly when that timestamp
is not already an id in the collection. -/
theorem C2_add_appends (tz now : Int) (nowMs : Nat) (st : AppState)
    (f : FormInput) (hpass : validateForm tz now f = none)
    (hmode : st.editingId = none) :
    (submit tz now nowMs st f).state.clients =
      st.clients ++ [clientFromForm nowMs f] ∧
    (submit tz now nowMs st f).state.clients.length = st.clients.length + 1 ∧
    (clientFromForm nowMs f).id = nowMs ∧
    (nowMs ∉ st.clients.map Client.id →
      ∀ c ∈ st.clients, c.id ≠ (clientFromForm nowMs f).id) := by
  refine ⟨by simp [submit, hpass, hmode], by simp [submit, hpass, hmode],
    rfl, ?_⟩
  intro hfresh c hc heq
  apply hfresh
  have h2 : c.id = nowMs := heq
  exact h2 ▸ List.mem_map_of_mem Client.id hc

/-- C2 witness: the amended Add-mode theorem applied to a concrete valid
submission over a one-element repository with a fresh timestamp. -/
theorem C2_add_appends_witness :
    let old : Client := ⟨42, "Old Name", "", "", "o@o.com", "11111111111",
      "keep fit", "2026-01-01", "2027-01-01"⟩
    let f : FormInput := ⟨"Jane Doe", "30", "female", "jane@x.com",
      "(555) 123-4567x1", "", "run marathon", "2026-10-11", "2026-10-18"⟩
    (submit 0 (1440 * 20737 + 720) 99 ⟨[old], none, none⟩ f).state.clients =
      [old] ++ [clientFromForm 99 f] ∧
    (submit 0 (1440 * 20737 + 720) 99 ⟨[old], none, none⟩
      f).state.clients.length = 2 ∧
    (∀ c ∈ [old], c.id ≠ (clientFromForm 99 f).id) := by
  intro old f
  have h := C2_add_appends 0 (1440 * 20737 + 720) 99 ⟨[old], none, none⟩ f
    (by decide) rfl
  exact ⟨h.1, h.2.1, h.2.2.2 (by decide)⟩

/-- C4: whenever validation fails, the handler returns before any
mutation — repository, store and edit-mode flag are all unchanged, no
success path runs — and the reported rule is the first violated one in the
fixed order [presence of required fields, email format, age range, phone
format, start-date check, end-date check] (each rule read independently by
`rulePasses`). -/
theorem C4_validation_failure (tz now : Int) (nowMs : Nat) (st : AppState)
    (f : FormInput) (e : SubmitError)
    (h : validateForm tz now f = some e) :
    submit tz now nowMs st f = ⟨st, some e, false⟩ ∧
    ruleOrder.find? (fun r => !rulePasses tz now f r) = some e := by
  constructor
  · simp [submit, h]
  · rw [← validateForm_eq_find]; exact h

/-- C4 witness: a submission whose only defect is a `.org` email is
rejected with the email-format rule, leaving a concrete populated state
untouched. -/
theorem C4_validation_failure_witness :
    let f : FormInput := ⟨"Jane Doe", "30", "female", "jane@x.org",
      "(555) 123-4567x1", "", "run marathon", "2026-10-11", "2026-10-18"⟩
    let st : AppState := ⟨[⟨7, "A", "", "", "a@a.com", "11111111111", "g",
      "2026-01-01", "2026-02-01"⟩], none, some "blob"⟩
    submit 0 (1440 * 20737 + 720) 99 st f = ⟨st, some .badEmail, false⟩ ∧
    ruleOrder.find? (fun r => !rulePasses 0 (1440 * 20737 + 720) f r) =
      some .badEmail := by
  intro f st
  exact C4_validation_failure 0 (1440 * 20737 + 720) 99 st f .badEmail
    (by decide)

/-- C10: a valid Edit-mode submission whose `editingId` matches no record
leaves the collection unchanged but still re-serializes it to the store,
returns to Add mode, clears the form, and reports no error. -/
theorem C10_edit_unknown_id (tz now : Int) (nowMs : Nat) (st : AppState)
    (f : FormInput) (eid : Nat) (hmode : st.editingId = some eid)
    (hpass : validateForm tz now f = none)
    (hnone : ∀ c ∈ st.clients, c.id ≠ eid) :
    submit tz now nowMs st f =
      ⟨⟨st.clients, none, saveClients st.clients⟩, none, true⟩ := by
  have hupd := updateFirst_nomatch (fun c => c.id == eid) (applyEdit f)
    st.clients (fun c hc => by simp [hnone c hc])
  simp [submit, hpass, hmode, hupd]

/-- C10 witness: the unknown-id edit theorem applied to a concrete state
whose single record does not carry the edited id. -/
theorem C10_edit_unknown_id_witness :
    let old : Client := ⟨7, "A", "", "", "a@a.com", "11111111111", "g",
      "2026-01-01", "2026-02-01"⟩
    let f : FormInput := ⟨"Jane Doe", "30", "female", "jane@x.com",
      "(555) 123-4567x1", "", "run marathon", "2026-10-11", "2026-10-18"⟩
    submit 0 (1440 * 20737 + 720) 99 ⟨[old], some 1234, none⟩ f =
      ⟨⟨[old], none, saveClients [old]⟩, none, true⟩ := by
  intro old f
  exact C10_edit_unknown_id 0 (1440 * 20737 + 720) 99 ⟨[old], some 1234, none⟩
    f 1234 rfl (by decide) (by decide)

/-- C3: a valid Edit-mode submission whose `editingId` matches a record
replaces exactly the first matching record in place — same position, same
id, every other field set to the submitted (trimmed / combined) value —
leaves every other record and the collection length unchanged, and
transitions back to Add mode. -/
theorem C3_edit_updates (tz now : Int) (nowMs : Nat) (st : AppState)
    (f : FormInput) (eid : Nat) (hmode : st.editingId = some eid)
    (hpass : validateForm tz now f = none)
    (hmem : ∃ c ∈ st.clients, c.id = eid) :
    ∃ pre x post,
      st.clients = pre ++ x :: post ∧ x.id = eid ∧
      (submit tz now nowMs st f).state.clients = pre ++ applyEdit f x :: post ∧
      (applyEdit f x).id = x.id ∧
      (applyEdit f x).fullName = jsTrim f.fullName ∧
      (applyEdit f x).age = jsTrim f.age ∧
      (applyEdit f x).gender = f.gender ∧
      (applyEdit f x).email = jsTrim f.email ∧
      (applyEdit f x).phone = jsTrim f.phone ∧
      (applyEdit f x).goal = finalGoalOf f ∧
      (applyEdit f x).startDate = f.startDate ∧
      (applyEdit f x).endDate = f.endDate ∧
      (submit tz now nowMs st f).state.clients.length = st.clients.length ∧
      (submit tz now nowMs st f).state.editingId = none := by
  obtain ⟨pre, x, post, heq, hpre, hx, hupd⟩ :=
    updateFirst_decomp (fun c => c.id == eid) (applyEdit f) st.clients
      (by obtain ⟨c, hc, hcid⟩ := hmem; exact ⟨c, hc, by simp [hcid]⟩)
  have hclients : (submit tz now nowMs st f).state.clients =
      pre ++ applyEdit f x :: post := by
    simp [submit, hpass, hmode, hupd]
  refine ⟨pre, x, post, heq, by simpa using hx, hclients, rfl, rfl, rfl, rfl,
    rfl, rfl, rfl, rfl, rfl, ?_, ?_⟩
  · rw [hclients, heq]; simp
  · simp [submit, hpass, hmode]

/-- C3 witness: editing the second of two records with a concrete valid
submission, checked on the edit theorem. -/
theorem C3_edit_updates_witness :
    let keep : Client := ⟨8, "Keep Me", "", "", "k@k.com", "22222222222", "h",
      "2026-01-01", "2026-02-01"⟩
    let old : Client := ⟨5, "Old Name", "", "", "o@o.com", "11111111111", "g",
      "2026-01-01", "2026-02-01"⟩
    let f : FormInput := ⟨"Jane Doe", "30", "female", "jane@x.com",
      "(555) 123-4567x1", "", "run marathon", "2026-10-11", "2026-10-18"⟩
    ∃ pre x post,
      [keep, old] = pre ++ x :: post ∧ x.id = 5 ∧
      (submit 0 (1440 * 20737 + 720) 99 ⟨[keep, old], some 5, none⟩
        f).state.clients = pre ++ applyEdit f x :: post ∧
      (applyEdit f x).id = x.id ∧
      (submit 0 (1440 * 20737 + 720) 99 ⟨[keep, old], some 5, none⟩
        f).state.clients.length = 2 ∧
      (submit 0 (1440 * 20737 + 720) 99 ⟨[keep, old], some 5, none⟩
        f).state.editingId = none := by
  intro keep old f
  obtain ⟨pre, x, post, h1, h2, h3, h4, _, _, _, _, _, _, _, _, h5, h6⟩ :=
    C3_edit_updates 0 (1440 * 20737 + 720) 99 ⟨[keep, old], some 5, none⟩ f 5
      rfl (by decide) ⟨old, by decide, rfl⟩
  exact ⟨pre, x, post, h1, h2, h3, h4, h5, h6⟩

/-- C5 (code bug): in a timezone west of UTC (here UTC-05:00, `tz = -300`
minutes) at local noon of 2026-10-11, the string `"2026-10-11"` denotes
the current local calendar day, yet `isDateNotInPast` rejects it: the
date-only string parses as UTC midnight while `setHours(0,0,0,0)` zeroes
the *local* clock, shifting the parsed date back one local day.  At UTC
(`tz = 0`) the same input is accepted, matching the documented intent
("True if date is today or in the future"). -/
theorem C5_today_rejected_west_of_utc :
    localDay (-300) (1440 * civilDays 2026 10 11 + 1020) =
      civilDays 2026 10 11 ∧
    parseDateOnly "2026-10-11" = some (civilDays 2026 10 11) ∧
    isDateNotInPast (-300) (1440 * civilDays 2026 10 11 + 1020)
      "2026-10-11" = false ∧
    isDateNotInPast 0 (1440 * civilDays 2026 10 11 + 720)
      "2026-10-11" = true := by decide

/-- C7: the persisted-store round trip — saving any in-memory collection
and loading it back reproduces the same collection; loading an absent blob
yields the empty collection; and loading a blob that fails to parse yields
the empty collection (the error is only logged). -/
theorem C7_store_roundtrip :
    (∀ l : List Client, loadClients (saveClients l) = l) ∧
    loadClients none = [] ∧
    (∀ s : String, parseClients s = none → loadClients (some s) = []) := by
  refine ⟨loadClients_saveClients, rfl, ?_⟩
  intro s hs
  show (if s.isEmpty = true then []
    else match parseClients s with
      | some x => x
      | none => []) = []
  split_ifs with h
  · rfl
  · rw [hs]

/-- C7 witness: the round trip evaluated on a concrete collection whose
strings need escaping, and the parse-failure clause on a non-JSON blob. -/
theorem C7_store_roundtrip_witness :
    loadClients (saveClients [⟨42, "Jane \"JD\" Doe", "30", "female",
      "jane@x.com", "(555) 123-4567x1", "Lose weight", "2026-10-11",
      "2026-10-18"⟩]) =
      [⟨42, "Jane \"JD\" Doe", "30", "female", "jane@x.com",
      "(555) 123-4567x1", "Lose weight", "2026-10-11", "2026-10-18"⟩] ∧
    loadClients (some "not json") = [] :=
  ⟨C7_store_roundtrip.1 _, C7_store_roundtrip.2.2 "not json" (by decide)⟩

theorem string_isEmpty_data (s : String) : s.isEmpty = true ↔ s.data = [] := by
  rw [String.isEmpty_iff]
  constructor
  · intro h; rw [h]
  · intro h; apply String.ext; rw [h]

/-- C6: for every fetched result set and every choice sequence, the
selection loop picks at most 5 items, draws without replacement from the
filtered set (the selection is a sub-permutation, so each array entry is
used at most once and every selected item belongs to the filtered set),
and — the filtered set having no duplicate entries — the displayed items
are pairwise distinct.  Termination for every finite pool is witnessed by
`selectLoop` being a total function (the pool shrinks by one on every
iteration). -/
theorem C6_selection_spec (rand : Nat → Nat) (results : List Exercise) :
    (selectSessionExercises rand results).length ≤ 5 ∧
    (selectSessionExercises rand results).Subperm
      (exercisesWithEnglish results) ∧
    (∀ e ∈ selectSessionExercises rand results,
      e ∈ exercisesWithEnglish results) ∧
    ((exercisesWithEnglish results).Nodup →
      (selectSessionExercises rand results).Nodup) := by
  obtain ⟨picked, hp1, hp2, hp3⟩ :=
    selectLoop_spec rand (exercisesWithEnglish results).length
      (exercisesWithEnglish results) (Nat.le_refl _) 0 [] (by simp)
  have hres : selectSessionExercises rand results = picked := by
    simpa [selectSessionExercises] using hp1
  rw [hres]
  refine ⟨by simpa using hp3, hp2, fun e he => hp2.subset he, fun hnd => ?_⟩
  obtain ⟨l, hperm, hsub⟩ := hp2
  exact hperm.nodup_iff.mp (hsub.nodup hnd)

/-- C6 witness: the selection theorem applied to a concrete result set and
choice sequence, with the no-duplicates premise discharged by computation. -/
theorem C6_selection_spec_witness :
    let results : List Exercise := [⟨1, some [⟨2, some "Squat"⟩]⟩,
      ⟨2, some [⟨7, some "Kniebeuge"⟩]⟩, ⟨3, some [⟨2, some "  "⟩]⟩,
      ⟨4, some [⟨2, some "Bench"⟩]⟩]
    (selectSessionExercises (fun k => k * 37 + 11) results).length ≤ 5 ∧
    (selectSessionExercises (fun k => k * 37 + 11) results).Nodup := by
  intro results
  exact ⟨(C6_selection_spec (fun k => k * 37 + 11) results).1,
    (C6_selection_spec (fun k => k * 37 + 11) results).2.2.2 (by decide)⟩

/-- C8: the search filter is a pure projection — with the query read as
the trimmed, lower-cased box content (exactly the `query` variable of
`applySearch`), an empty query renders the repository itself (so a blank
search after any other search restores the full row set), the rendered
rows are always a sublist of the repository (original order, nothing
mutated), and for a non-empty query a record is rendered iff its
lower-cased `fullName` contains the query as a substring (case-insensitive
match). -/
theorem C8_search_spec (rawQuery : String) (clients : List Client) :
    ((jsToLower (jsTrim rawQuery)).isEmpty = true →
      applySearch rawQuery clients = clients) ∧
    (applySearch rawQuery clients).Sublist clients ∧
    ((jsToLower (jsTrim rawQuery)).isEmpty = false →
      ∀ c, c ∈ applySearch rawQuery clients ↔
        c ∈ clients ∧
        (jsToLower (jsTrim rawQuery)).data <:+: (jsToLower c.fullName).data) := by
  refine ⟨fun h => by simp [applySearch, h], ?_, fun hq c => ?_⟩
  · dsimp only [applySearch]
    split_ifs
    · exact List.Sublist.refl _
    · exact List.filter_sublist _
  · have hqne : (jsToLower (jsTrim rawQuery)).data ≠ [] := by
      intro hnil
      rw [(string_isEmpty_data _).mpr hnil] at hq
      exact Bool.true_eq_false.mp hq
    dsimp only [applySearch]
    rw [if_neg (by simp [hq])]
    simp only [List.mem_filter, Bool.and_eq_true, Bool.not_eq_eq_eq_not,
      Bool.not_true, jsIncludes, decide_eq_true_eq]
    constructor
    · rintro ⟨hmem, _, hinf⟩
      exact ⟨hmem, hinf⟩
    · rintro ⟨hmem, hinf⟩
      refine ⟨hmem, ?_, hinf⟩
      cases hfe : c.fullName.isEmpty
      · rfl
      · exfalso
        have hdata : c.fullName.data = [] := (string_isEmpty_data _).mp hfe
        have hlow : (jsToLower c.fullName).data = [] := by
          simp [jsToLower, hdata]
        rw [hlow] at hinf
        exact hqne (List.eq_nil_of_length_eq_zero
          (Nat.le_zero.mp (by simpa using hinf.length_le)))

/-- C8 witness: the search theorem applied to a concrete repository and a
padded mixed-case query, both branches exercised. -/
theorem C8_search_spec_witness :
    let hannah : Client := ⟨1, "Hannah", "", "", "", "", "", "", ""⟩
    let bob : Client := ⟨2, "Bob", "", "", "", "", "", "", ""⟩
    (applySearch "" [hannah, bob] = [hannah, bob]) ∧
    (hannah ∈ applySearch "  ANN  " [hannah, bob] ↔
      hannah ∈ [hannah, bob] ∧
      (jsToLower (jsTrim "  ANN  ")).data <:+: (jsToLower "Hannah").data) := by
  intro hannah bob
  exact ⟨(C8_search_spec "" [hannah, bob]).1 (by decide),
    (C8_search_spec "  ANN  " [hannah, bob]).2.2 (by decide) hannah⟩

/-- C9 counterexample: deleting an id that matches no record is a silent
no-op — the delete branch at `main.js:684` returns without any console
output, unlike the edit branch which does log its lookup failure — so the
claim that the failed delete lookup is logged is false on the code. -/
theorem C9_counterexample :
    let keep : Client := ⟨8, "Keep Me", "", "", "k@k.com", "22222222222",
      "h", "2026-01-01", "2026-02-01"⟩
    handleDelete [keep] (some "blob") 99 true =
      ⟨[keep], some "blob", []⟩ ∧
    handleEditClick [keep] none 99 = (none, ["No client found for id"]) := by
  decide

/-- C9 (amended): a delete whose id matches no record is a no-op on the
repository and store with no console output; a declined confirmation
leaves everything unchanged; an accepted confirmation keeps exactly the
records with a different id (and saves them) — under the unique-id
invariant this removes exactly the matched record, preserving all others
in order. -/
theorem C9_delete_spec (clients : List Client) (store : Option String)
    (idToDelete : Nat) (confirmDelete : Bool) :
    (clients.find? (fun c => c.id == idToDelete) = none →
      handleDelete clients store idToDelete confirmDelete =
        ⟨clients, store, []⟩) ∧
    (confirmDelete = false →
      handleDelete clients store idToDelete confirmDelete =
        ⟨clients, store, []⟩) ∧
    (∀ c, clients.find? (fun c => c.id == idToDelete) = some c →
      confirmDelete = true →
      (handleDelete clients store idToDelete confirmDelete).clients =
        clients.filter (fun c => c.id != idToDelete) ∧
      (handleDelete clients store idToDelete confirmDelete).store =
        saveClients (clients.filter (fun c => c.id != idToDelete)) ∧
      (handleDelete clients store idToDelete confirmDelete).logs = [] ∧
      ((clients.map Client.id).Nodup →
        ∃ pre post, clients = pre ++ c :: post ∧
          (handleDelete clients store idToDelete confirmDelete).clients =
            pre ++ post)) := by
  refine ⟨fun h => by simp [handleDelete, h], ?_, ?_⟩
  · intro h
    subst h
    unfold handleDelete
    cases clients.find? (fun c => c.id == idToDelete) <;> simp
  · intro c hfind hconf
    subst hconf
    have h1 : (handleDelete clients store idToDelete true).clients =
        clients.filter (fun c => c.id != idToDelete) := by
      simp [handleDelete, hfind]
    have h2 : (handleDelete clients store idToDelete true).store =
        saveClients (clients.filter (fun c => c.id != idToDelete)) := by
      simp [handleDelete, hfind]
    have h3 : (handleDelete clients store idToDelete true).logs = [] := by
      simp [handleDelete, hfind]
    refine ⟨h1, h2, h3, fun hnodup => ?_⟩
    obtain ⟨hpc, pre, post, heq, hpre⟩ := List.find?_eq_some.mp hfind
    have hcid : c.id = idToDelete := by simpa using hpc
    refine ⟨pre, post, heq, ?_⟩
    rw [h1, heq]
    rw [heq, List.map_append, List.map_cons] at hnodup
    have hdisj := (List.nodup_append.mp hnodup).2.1
    have hpost : ∀ b ∈ post, b.id ≠ idToDelete := by
      intro b hb hbid
      have hbc : b.id = c.id := by rw [hbid, hcid]
      exact (List.nodup_cons.mp hdisj).1
        (hbc ▸ List.mem_map_of_mem Client.id hb)
    rw [List.filter_append, List.filter_cons]
    have hc_drop : (c.id != idToDelete) = false := by simp [hcid]
    rw [hc_drop]
    simp only [Bool.false_eq_true, if_false]
    rw [List.filter_eq_self.mpr, List.filter_eq_self.mpr]
    · intro b hb
      simpa using hpost b hb
    · intro b hb
      simpa using hpre b hb

/-- C9 witness: the delete theorem applied to a concrete two-record
repository — missing id, declined confirmation, and accepted deletion of
the first record, including the exact-removal decomposition. -/
theorem C9_delete_spec_witness :
    let keep : Client := ⟨8, "Keep Me", "", "", "k@k.com", "22222222222",
      "h", "2026-01-01", "2026-02-01"⟩
    let other : Client := ⟨9, "Other", "", "", "o@o.com", "33333333333",
      "g", "2026-01-01", "2026-02-01"⟩
    (handleDelete [keep, other] (some "blob") 77 true =
      ⟨[keep, other], some "blob", []⟩) ∧
    (handleDelete [keep, other] (some "blob") 8 false =
      ⟨[keep, other], some "blob", []⟩) ∧
    (handleDelete [keep, other] (some "blob") 8 true).clients =
      [keep, other].filter (fun c => c.id != 8) ∧
    (∃ pre post, [keep, other] = pre ++ keep :: post ∧
      (handleDelete [keep, other] (some "blob") 8 true).clients =
        pre ++ post) := by
  intro keep other
  refine ⟨(C9_delete_spec [keep, other] (some "blob") 77 true).1 (by decide),
    (C9_delete_spec [keep, other] (some "blob") 8 false).2.1 rfl, ?_, ?_⟩
  · exact ((C9_delete_spec [keep, other] (some "blob") 8 true).2.2 keep
      (by decide) rfl).1
  · exact ((C9_delete_spec [keep, other] (some "blob") 8 true).2.2 keep
      (by decide) rfl).2.2.2 (by decide)

end FitCRM
